import Mathlib

/-
Verification of the serverless-aws-auto-resource-names plugin
(src/unnamed/part_000, first module: lines 1-441).

The JavaScript source is shallowly embedded: parsed-JSON template values
become `JValue`, JS objects become insertion-ordered association lists,
in-place mutation becomes explicit state passing, and `throw` becomes
`Except.error`.
-/

namespace AutoNames

/-- JSON-like values as found in a parsed CloudFormation template.
JSON `null` is omitted: no modelled code path distinguishes it from the
other falsy primitives, and absent object members are modelled with
`Option` (JS `undefined`). -/
inductive JValue where
  | str (s : String)
  | num (n : Int)
  | bool (b : Bool)
  | arr (elems : List JValue)
  | obj (fields : List (String × JValue))

/-- JavaScript truthiness of a `JValue`. -/
def truthy : JValue → Bool
  | .str s => s != ""
  | .num n => n != 0
  | .bool b => b
  | .arr _ => true
  | .obj _ => true

/-- JS `typeof v === "string"`. -/
def JValue.isStr : JValue → Bool
  | .str _ => true
  | _ => false

/-- JS `typeof v === "boolean"`. -/
def JValue.isBool : JValue → Bool
  | .bool _ => true
  | _ => false

/-- Whether the value is an object (a JSON mapping). -/
def JValue.isObj : JValue → Bool
  | .obj _ => true
  | _ => false

/-- The string carried by a `JValue`, defaulting to `""`. -/
def JValue.strD : JValue → String
  | .str s => s
  | _ => ""

/-- The boolean carried by a `JValue`, defaulting to `false`. -/
def JValue.boolD : JValue → Bool
  | .bool b => b
  | _ => false

/-- A JavaScript object: an insertion-ordered association list of members. -/
abbrev Props := List (String × JValue)

/-- JS member read `o[k]`; `none` models `undefined`. -/
def getProp : Props → String → Option JValue
  | [], _ => none
  | (k1, v1) :: rest, k => if k1 = k then some v1 else getProp rest k

/-- JS member write `o[k] = v`: replaces an existing member in place
(keeping its position), otherwise appends. -/
def setProp : Props → String → JValue → Props
  | [], k, v => [(k, v)]
  | (k1, v1) :: rest, k, v =>
      if k1 = k then (k, v) :: rest else (k1, v1) :: setProp rest k v

/-- The plugin configuration produced by `initializeConfig` (source lines
435-437).  `generateExports` is stored exactly as the user supplied it,
because `initializeConfig` never validates that field; the remaining fields
are validated and hence carry their validated types.  The source's
`prefix` and `exportPrefix` fields are named `pfx` and `exportPfx` here. -/
structure Config where
  pfx : String
  exportPfx : Option String
  generateExports : JValue
  removeLambdaFunctionSuffix : Bool
  logMissingTypeBehaviourWarning : Bool

/-- `class TypeID` (source lines 6-22). -/
structure TypeID where
  root : String
  provider : String
  name : String

/-- `TypeID.equal` (source lines 19-21). -/
def TypeID.equal (a b : TypeID) : Bool :=
  a.root == b.root && a.provider == b.provider && a.name == b.name

/-- Modelled from the spec: the external `change-case` dependency's
`kebabCase` is not part of this repository.  The spec describes the default
logical-name converter as turning the identifier "into a lowercase
hyphen-delimited form (kebab form), preserving word boundaries derived from
case transitions and non-alphanumeric separators".  `splitCamel` inserts a
space at each case-transition word boundary: after a lowercase letter or
digit followed by an uppercase letter, and between two uppercase letters
when the second starts a capitalized word (is followed by a lowercase
letter). -/
def splitCamel : List Char → List Char
  | [] => []
  | [c] => [c]
  | a :: b :: rest =>
      if (a.isLower || a.isDigit) && b.isUpper then
        a :: ' ' :: splitCamel (b :: rest)
      else if a.isUpper && b.isUpper &&
          (match rest with | c :: _ => c.isLower | [] => false) then
        a :: ' ' :: splitCamel (b :: rest)
      else
        a :: splitCamel (b :: rest)

/-- Split a character list into the chunks delimited by spaces. -/
def splitOnSpace : List Char → List (List Char)
  | [] => [[]]
  | ' ' :: rest => [] :: splitOnSpace rest
  | c :: rest =>
      match splitOnSpace rest with
      | [] => [[c]]
      | w :: ws => (c :: w) :: ws

/-- Modelled from the spec: the `change-case` library's `kebabCase`.
Non-alphanumeric characters act as separators, case transitions mark word
boundaries, words are lowercased and joined with hyphens. -/
def kebabCase (s : String) : String :=
  let cleaned := s.data.map (fun c => if c.isAlpha || c.isDigit then c else ' ')
  let words := (splitOnSpace (splitCamel cleaned)).filter (fun w => !w.isEmpty)
  String.intercalate "-" (words.map (fun w => String.mk (w.map Char.toLower)))

/-- JS `val.replace(regex-for-single-char a, b)` with the global flag. -/
def jsReplaceAllChar (a b : Char) (s : String) : String :=
  s.map (fun c => if c == a then b else c)

/-- Whether the character list `l` ends with `suf`. -/
def endsWithL (l suf : List Char) : Bool :=
  if suf.length ≤ l.length then l.drop (l.length - suf.length) == suf else false

/-- JS `s.replace(/suf$/, "")`: drops `suf` when `s` ends with exactly that
token, otherwise returns `s` unchanged. -/
def jsReplaceSuffix (suf s : String) : String :=
  if endsWithL s.data suf.data then
    String.mk (s.data.take (s.data.length - suf.data.length))
  else s

/-- `class TypeSpec` (source lines 25-105): the per-type naming rule. -/
structure TypeSpec where
  typeId : TypeID
  nameConverter : String → Config → String
  logicalNameConverter : String → Config → String
  namePropIncludesTypeName : Bool
  noNameInsertion : Bool
  namePropReplacement : Option String

/-- `TypeSpec.getNameProp` (source lines 61-63):
`this.namePropReplacement || (this.namePropIncludesTypeName ?
this.typeId.name + "Name" : "Name")` — the replacement is used when truthy
(present and non-empty). -/
def TypeSpec.getNameProp (sp : TypeSpec) : String :=
  match sp.namePropReplacement with
  | some r =>
      if r != "" then r
      else if sp.namePropIncludesTypeName then sp.typeId.name ++ "Name" else "Name"
  | none =>
      if sp.namePropIncludesTypeName then sp.typeId.name ++ "Name" else "Name"

/-- `TypeSpec.getNameValue` (source lines 72-74). -/
def TypeSpec.getNameValue (sp : TypeSpec) (pfx logicalName : String)
    (cfg : Config) : String :=
  sp.nameConverter (pfx ++ sp.logicalNameConverter logicalName cfg) cfg

/-- `TypeSpec.isApplicable` (source lines 81-83). -/
def TypeSpec.isApplicable (sp : TypeSpec) (t : TypeID) : Bool :=
  TypeID.equal sp.typeId t

/-- `TypeSpec.isNameInserted` (source lines 102-104). -/
def TypeSpec.isNameInserted (sp : TypeSpec) : Bool :=
  !sp.noNameInsertion

/-- `TypeSpec.applyType` (source lines 93-97):
`element[getNameProp()] = (logicalElement || {})[getNameProp()] ||
getNameValue(prefix, logicalName, pluginConfig)`, guarded by
`isNameInserted()`.  `element` is returned updated instead of mutated. -/
def TypeSpec.applyType (sp : TypeSpec) (element : Props)
    (logicalElement : Option Props) (pfx logicalName : String)
    (cfg : Config) : Props :=
  if sp.isNameInserted then
    setProp element sp.getNameProp
      (match getProp (logicalElement.getD []) sp.getNameProp with
       | some v => if truthy v then v else JValue.str (sp.getNameValue pfx logicalName cfg)
       | none => JValue.str (sp.getNameValue pfx logicalName cfg))
  else element

/-- The value the `applyType` assignment writes:
`(logicalElement || {})[getNameProp()] || getNameValue(...)`. -/
def writeVal (sp : TypeSpec) (logicalElement : Option Props)
    (pfx logicalName : String) (cfg : Config) : JValue :=
  match getProp (logicalElement.getD []) sp.getNameProp with
  | some v => if truthy v then v else JValue.str (sp.getNameValue pfx logicalName cfg)
  | none => JValue.str (sp.getNameValue pfx logicalName cfg)

/-- `new TypeSpec(t)` with every option left at its default
(source lines 35-55). -/
def defaultSpec (t : TypeID) : TypeSpec :=
  { typeId := t
    nameConverter := fun val _ => val
    logicalNameConverter := fun val _ => kebabCase val
    namePropIncludesTypeName := true
    noNameInsertion := false
    namePropReplacement := none }

/-- `new TypeSpec(t, { namePropIncludesTypeName: false })`. -/
def specNoTypeName (t : TypeID) : TypeSpec :=
  { defaultSpec t with namePropIncludesTypeName := false }

/-- `new TypeSpec(t, { noNameInsertion: true })`. -/
def specNoInsert (t : TypeID) : TypeSpec :=
  { defaultSpec t with noNameInsertion := true }

/-- The rule table `typeSpecs` (source lines 108-252), in declaration
order.  Entries written with an explicit `noNameInsertion: false` in the
source coincide with the defaults and are transcribed as `defaultSpec`. -/
def typeSpecs : List TypeSpec := [
  specNoTypeName ⟨"Alexa", "ASK", "Skill"⟩,
  defaultSpec ⟨"AWS", "AmazonMQ", "Broker"⟩,
  specNoTypeName ⟨"AWS", "AmazonMQ", "Configuration"⟩,
  specNoInsert ⟨"AWS", "AmazonMQ", "ConfigurationAssociation"⟩,
  specNoTypeName ⟨"AWS", "Amplify", "App"⟩,
  specNoInsert ⟨"AWS", "Amplify", "Branch"⟩,
  specNoInsert ⟨"AWS", "Amplify", "Domain"⟩,
  defaultSpec ⟨"AWS", "ApiGateway", "Account"⟩,
  specNoTypeName ⟨"AWS", "ApiGateway", "ApiKey"⟩,
  specNoTypeName ⟨"AWS", "ApiGateway", "Authorizer"⟩,
  defaultSpec ⟨"AWS", "ApiGateway", "BasePathMapping"⟩,
  defaultSpec ⟨"AWS", "ApiGateway", "ClientCertificate"⟩,
  defaultSpec ⟨"AWS", "ApiGateway", "Deployment"⟩,
  defaultSpec ⟨"AWS", "ApiGateway", "DocumentationPart"⟩,
  defaultSpec ⟨"AWS", "ApiGateway", "DocumentationVersion"⟩,
  defaultSpec ⟨"AWS", "ApiGateway", "DomainName"⟩,
  defaultSpec ⟨"AWS", "ApiGateway", "GatewayResponse"⟩,
  defaultSpec ⟨"AWS", "ApiGateway", "Method"⟩,
  specNoTypeName ⟨"AWS", "ApiGateway", "Model"⟩,
  specNoTypeName ⟨"AWS", "ApiGateway", "RequestValidator"⟩,
  specNoInsert ⟨"AWS", "ApiGateway", "Resource"⟩,
  specNoTypeName ⟨"AWS", "ApiGateway", "RestApi"⟩,
  specNoInsert ⟨"AWS", "ApiGateway", "Stage"⟩,
  defaultSpec ⟨"AWS", "ApiGateway", "UsagePlan"⟩,
  specNoInsert ⟨"AWS", "ApiGateway", "UsagePlanKey"⟩,
  specNoTypeName ⟨"AWS", "ApiGateway", "VpcLink"⟩,
  specNoTypeName ⟨"AWS", "ApiGatewayV2", "Api"⟩,
  specNoInsert ⟨"AWS", "ApiGatewayV2", "ApiMapping"⟩,
  specNoTypeName ⟨"AWS", "ApiGatewayV2", "Authorizer"⟩,
  specNoInsert ⟨"AWS", "ApiGatewayV2", "Deployment"⟩,
  specNoInsert ⟨"AWS", "ApiGatewayV2", "DomainName"⟩,
  specNoInsert ⟨"AWS", "ApiGatewayV2", "Integration"⟩,
  specNoInsert ⟨"AWS", "ApiGatewayV2", "IntegrationResponse"⟩,
  specNoTypeName ⟨"AWS", "ApiGatewayV2", "Model"⟩,
  specNoInsert ⟨"AWS", "ApiGatewayV2", "Route"⟩,
  specNoInsert ⟨"AWS", "ApiGatewayV2", "RouteResponse"⟩,
  specNoInsert ⟨"AWS", "ApiGatewayV2", "Stage"⟩,
  specNoInsert ⟨"AWS", "ApplicationAutoScaling", "ScalableTarget"⟩,
  { defaultSpec ⟨"AWS", "ApplicationAutoScaling", "ScalingPolicy"⟩ with
      namePropReplacement := some "PolicyName" },
  specNoInsert ⟨"AWS", "AppSync", "ApiKey"⟩,
  { specNoTypeName ⟨"AWS", "AppSync", "DataSource"⟩ with
      nameConverter := fun val _ => jsReplaceAllChar '-' '_' val },
  { specNoTypeName ⟨"AWS", "AppSync", "FunctionConfiguration"⟩ with
      nameConverter := fun val _ => jsReplaceAllChar '-' '_' val },
  specNoTypeName ⟨"AWS", "AppSync", "GraphQLApi"⟩,
  specNoInsert ⟨"AWS", "AppSync", "GraphQLSchema"⟩,
  specNoInsert ⟨"AWS", "AppSync", "Resolver"⟩,
  specNoInsert ⟨"AWS", "CloudFront", "Distribution"⟩,
  specNoInsert ⟨"AWS", "CloudFront", "CloudFrontOriginAccessIdentity"⟩,
  specNoInsert ⟨"AWS", "CloudFront", "StreamingDistribution"⟩,
  defaultSpec ⟨"AWS", "Logs", "Destination"⟩,
  defaultSpec ⟨"AWS", "Logs", "LogGroup"⟩,
  defaultSpec ⟨"AWS", "Logs", "LogStream"⟩,
  specNoInsert ⟨"AWS", "Logs", "MetricFilter"⟩,
  specNoInsert ⟨"AWS", "Logs", "SubscriptionFilter"⟩,
  specNoTypeName ⟨"AWS", "CodeBuild", "Project"⟩,
  specNoInsert ⟨"AWS", "CodeBuild", "SourceCredentials"⟩,
  defaultSpec ⟨"AWS", "CodeCommit", "Repository"⟩,
  defaultSpec ⟨"AWS", "CodeDeploy", "Application"⟩,
  defaultSpec ⟨"AWS", "CodeDeploy", "DeploymentConfig"⟩,
  defaultSpec ⟨"AWS", "CodeDeploy", "DeploymentGroup"⟩,
  specNoInsert ⟨"AWS", "CodePipeline", "CustomActionType"⟩,
  specNoTypeName ⟨"AWS", "CodePipeline", "Pipeline"⟩,
  specNoTypeName ⟨"AWS", "CodePipeline", "Webhook"⟩,
  defaultSpec ⟨"AWS", "Cognito", "IdentityPool"⟩,
  specNoInsert ⟨"AWS", "Cognito", "IdentityPoolRoleAttachment"⟩,
  defaultSpec ⟨"AWS", "Cognito", "UserPool"⟩,
  { defaultSpec ⟨"AWS", "Cognito", "UserPoolClient"⟩ with
      namePropReplacement := some "ClientName" },
  specNoInsert ⟨"AWS", "Cognito", "UserPoolDomain"⟩,
  specNoInsert ⟨"AWS", "Cognito", "UserPoolGroup"⟩,
  specNoInsert ⟨"AWS", "Cognito", "UserPoolIdentityProvider"⟩,
  specNoInsert ⟨"AWS", "Cognito", "UserPoolResourceServer"⟩,
  specNoInsert ⟨"AWS", "Cognito", "UserPoolRiskConfigurationAttachment"⟩,
  specNoInsert ⟨"AWS", "Cognito", "UserPoolUICustomizationAttachment"⟩,
  specNoInsert ⟨"AWS", "Cognito", "UserPoolUser"⟩,
  specNoInsert ⟨"AWS", "Cognito", "UserPoolUserToGroupAttachment"⟩,
  defaultSpec ⟨"AWS", "DynamoDB", "Table"⟩,
  specNoInsert ⟨"AWS", "IAM", "AccessKey"⟩,
  defaultSpec ⟨"AWS", "IAM", "Group"⟩,
  defaultSpec ⟨"AWS", "IAM", "InstanceProfile"⟩,
  defaultSpec ⟨"AWS", "IAM", "ManagedPolicy"⟩,
  defaultSpec ⟨"AWS", "IAM", "Policy"⟩,
  defaultSpec ⟨"AWS", "IAM", "Role"⟩,
  specNoInsert ⟨"AWS", "IAM", "ServiceLinkedRole"⟩,
  defaultSpec ⟨"AWS", "IAM", "User"⟩,
  specNoInsert ⟨"AWS", "IAM", "User"⟩,
  specNoInsert ⟨"AWS", "Lambda", "Alias"⟩,
  specNoInsert ⟨"AWS", "Lambda", "EventSourceMapping"⟩,
  { defaultSpec ⟨"AWS", "Lambda", "Function"⟩ with
      logicalNameConverter := fun val cfg =>
        kebabCase (if cfg.removeLambdaFunctionSuffix then
          jsReplaceSuffix "LambdaFunction" val else val) },
  { defaultSpec ⟨"AWS", "Lambda", "LayerVersion"⟩ with
      namePropReplacement := some "LayerName" },
  specNoInsert ⟨"AWS", "Lambda", "LayerVersionPermission"⟩,
  specNoInsert ⟨"AWS", "Lambda", "Permission"⟩,
  specNoInsert ⟨"AWS", "Lambda", "Version"⟩,
  { defaultSpec ⟨"AWS", "S3", "Bucket"⟩ with
      nameConverter := fun val _ =>
        jsReplaceAllChar '.' '-' (jsReplaceAllChar '_' '-' val) },
  specNoInsert ⟨"AWS", "S3", "BucketPolicy"⟩,
  specNoInsert ⟨"AWS", "SNS", "Subscription"⟩,
  defaultSpec ⟨"AWS", "SNS", "Topic"⟩,
  specNoInsert ⟨"AWS", "SNS", "TopicPolicy"⟩,
  defaultSpec ⟨"AWS", "SQS", "Queue"⟩,
  specNoInsert ⟨"AWS", "SQS", "QueuePolicy"⟩]

/-- A fatal error raised while the plugin runs.  `pluginErr msg` models
`throwError(msg)` (source lines 390-398), which throws
`new Error("Aws Auto Resource Names Error: " + msg)`.  `jsTypeError`
models a raw JavaScript `TypeError` raised by the engine itself (for
example when destructuring the `null` returned by a failed regex match,
source line 331); its engine-generated message carries no plugin text and
no logical id, so it is modelled as a constant. -/
inductive PluginError where
  | pluginErr (msg : String)
  | jsTypeError
deriving DecidableEq

/-- The raw `custom["awsAutoResourceNames"]` options object (source lines
400-408); `none` models a JS `undefined` field, for which the destructuring
default applies. -/
structure RawConfig where
  pfx : Option JValue
  exportPfx : Option JValue
  generateExports : Option JValue
  removeLambdaFunctionSuffix : Option JValue
  logMissingTypeBehaviourWarning : Option JValue

/-- The residual checks and construction at the end of `initializeConfig`
(source lines 424-437), after the prefix fields have been validated. -/
def initializeConfigRest (pfxS : String) (exportPfxS : Option String)
    (geV rmV lwV : JValue) : Except PluginError Config :=
  if !rmV.isBool then
    .error (.pluginErr "config remove lambda function suffix property must be a boolean")
  else if !lwV.isBool then
    .error (.pluginErr "config log missing type behaviour warning property must be a boolean")
  else
    .ok { pfx := pfxS, exportPfx := exportPfxS, generateExports := geV,
          removeLambdaFunctionSuffix := rmV.boolD,
          logMissingTypeBehaviourWarning := lwV.boolD }

/-- `initializeConfig` (source lines 400-438).  Checks, in source order:
`prefix` must be a string, then non-empty; `exportPrefix`, when defined,
must be a string, then non-empty; `removeLambdaFunctionSuffix` and
`logMissingTypeBehaviourWarning` must be booleans.  `generateExports` is
never checked. -/
def initializeConfig (raw : RawConfig) : Except PluginError Config :=
  let pfxV := raw.pfx.getD (JValue.str "")
  let geV := raw.generateExports.getD (JValue.bool false)
  let rmV := raw.removeLambdaFunctionSuffix.getD (JValue.bool true)
  let lwV := raw.logMissingTypeBehaviourWarning.getD (JValue.bool true)
  if !pfxV.isStr then
    .error (.pluginErr "config prefix property must be string")
  else if pfxV.strD == "" then
    .error (.pluginErr "config prefix property must be nonempty")
  else
    match raw.exportPfx with
    | some ev =>
        if !ev.isStr then
          .error (.pluginErr "config output prefix property must be string")
        else if ev.strD == "" then
          .error (.pluginErr "config output prefix property must be non empty or undefined")
        else initializeConfigRest pfxV.strD (some ev.strD) geV rmV lwV
    | none => initializeConfigRest pfxV.strD none geV rmV lwV

/-- A resource declaration as read from the template JSON.  Only the two
members the plugin touches are modelled: `Type` (any JSON value, possibly
absent) and `Properties` (an object or absent; the plugin never encounters
a primitive `Properties` in the modelled claims). -/
structure Resource where
  typeTag : Option JValue
  props : Option Props

/-- The `Resources` (or template-resources) object: logical id to
declaration, in insertion order. -/
abbrev ResMap := List (String × Resource)

/-- JS member read on a resources object. -/
def lookupRes : ResMap → String → Option Resource
  | [], _ => none
  | (k1, r1) :: rest, k => if k1 = k then some r1 else lookupRes rest k

/-- JS member write on a resources object: replaces in place, else appends
(the passes only ever write to keys that are present). -/
def setRes : ResMap → String → Resource → ResMap
  | [], k, r => [(k, r)]
  | (k1, r1) :: rest, k, r =>
      if k1 = k then (k, r) :: rest else (k1, r1) :: setRes rest k r

/-- Whether a character is a regex `\w` word character. -/
def isWordChar (c : Char) : Bool :=
  c.isAlpha || c.isDigit || c == '_'

/-- Split a character list at each non-overlapping occurrence of `::`,
scanning left to right, as `"::"` occurs in the anchored regex. -/
def splitTag : List Char → List (List Char)
  | [] => [[]]
  | ':' :: ':' :: rest => [] :: splitTag rest
  | c :: rest =>
      match splitTag rest with
      | [] => [[c]]
      | w :: ws => (c :: w) :: ws

/-- The regex match of source line 331:
`/^(?<typeRoot>\w*)::(?<typeProvider>\w*)::(?<typeName>\w*)$/.exec(tag)`.
Each segment is ZERO or more word characters.  `none` models a `null`
match result. -/
def execTypeTag (s : String) : Option (String × String × String) :=
  match splitTag s.data with
  | [a, b, c] =>
      if a.all isWordChar && b.all isWordChar && c.all isWordChar then
        some (String.mk a, String.mk b, String.mk c)
      else none
  | _ => none

/-- Definition following the spec's words, used to state claim C4: a type
tag of shape `root::provider::name` in which each segment is ONE or more
word characters. -/
def specStrictTagPattern (s : String) : Bool :=
  match splitTag s.data with
  | [a, b, c] =>
      !a.isEmpty && !b.isEmpty && !c.isEmpty &&
        a.all isWordChar && b.all isWordChar && c.all isWordChar
  | _ => false

/-- The `Type` validation at the head of `applyOnResource` (source lines
324-328): falsy `Type` (absent, `""`, `0`, `false`) gives the "missing"
error, a truthy non-string gives the "must be string" error. -/
def checkType (t : Option JValue) (logicalName : String) :
    Except PluginError String :=
  match t with
  | none =>
      .error (.pluginErr ("property \"Type\" is missing on resource \"" ++ logicalName ++ "\""))
  | some v =>
      if truthy v then
        match v with
        | .str s => .ok s
        | _ => .error (.pluginErr ("property \"Type\" must be string on resource \"" ++ logicalName ++ "\""))
      else
        .error (.pluginErr ("property \"Type\" is missing on resource \"" ++ logicalName ++ "\""))

/-- `this.log(msg)` (source lines 304-306): the string handed to the
diagnostics sink. -/
def plgLog (msg : String) : String :=
  "AWS Auto Resource Names Plugin: " ++ msg

/-- The diagnostic strings emitted when no rule matches (source lines
336-340): two `this.log` calls, gated by the warning flag. -/
def missingTypeDiags (cfg : Config) (tag : String) : List String :=
  if cfg.logMissingTypeBehaviourWarning then
    [plgLog ("Behaviour for Resource Type \"" ++ tag ++ "\" is not specified!"),
     plgLog "Create a GitHub Issue for it to be added to the plugin."]
  else []

/-- `applyOnResource` (source lines 319-349).  Returns the updated
resources object together with the diagnostic strings emitted, or the
fatal error thrown.  A throw happens before any mutation, so an error
carries no updated state.  A missing key would make JS throw a `TypeError`
reading `.Type` of `undefined`; the passes only call this with present
keys. -/
def applyOnResource (cfg : Config) (resources : ResMap)
    (templateResources : Option ResMap) (logicalName : String) :
    Except PluginError (ResMap × List String) :=
  match lookupRes resources logicalName with
  | none => .error .jsTypeError
  | some resource =>
    match checkType resource.typeTag logicalName with
    | .error e => .error e
    | .ok tag =>
      match execTypeTag tag with
      | none => .error .jsTypeError
      | some (tr, tp, tn) =>
        match typeSpecs.find? (fun sp => sp.isApplicable ⟨tr, tp, tn⟩) with
        | none => .ok (resources, missingTypeDiags cfg tag)
        | some sp =>
          let props0 := resource.props.getD []
          let priorProps :=
            (templateResources.bind (fun trs => lookupRes trs logicalName)).bind
              (fun tr2 => tr2.props)
          let newProps := sp.applyType props0 priorProps cfg.pfx logicalName cfg
          .ok (setRes resources logicalName { resource with props := some newProps }, [])

/-- JS `policies[i]["PolicyName"] = v` on one element of the `Policies`
array: an object gains the member; a primitive element discards the write
(sloppy-mode JS; an array element would hold the property invisibly to
JSON serialization and is likewise modelled as unchanged). -/
def setPolicyName (i : Nat) : JValue → JValue
  | .obj fields =>
      .obj (setProp fields "PolicyName" (.str ("inline-policy-" ++ toString i)))
  | v => v

/-- Index-passing map used for the policy loop (source lines 313-315). -/
def mapWithIndex (f : Nat → JValue → JValue) : Nat → List JValue → List JValue
  | _, [] => []
  | i, x :: xs => f i x :: mapWithIndex f (i + 1) xs

/-- `applyPolicyNamesOnResource` (source lines 308-317): when
`Properties["Policies"]` is an array, each element is assigned the label
`"inline-policy-" + i`; otherwise nothing changes. -/
def applyPolicyNamesOnResource (resources : ResMap) (logicalName : String) :
    ResMap :=
  match lookupRes resources logicalName with
  | none => resources
  | some resource =>
    match resource.props with
    | none => resources
    | some props =>
      match getProp props "Policies" with
      | some (.arr policies) =>
          setRes resources logicalName
            { resource with
              props := some (setProp props "Policies"
                (.arr (mapWithIndex setPolicyName 0 policies))) }
      | _ => resources

/-- An output declaration.  Only the `Export` member is modelled (an
object or absent). -/
structure Output where
  exportBlock : Option Props

/-- The `Outputs` object: logical id to output declaration. -/
abbrev OutMap := List (String × Output)

/-- JS member read on an outputs object. -/
def lookupOut : OutMap → String → Option Output
  | [], _ => none
  | (k1, o1) :: rest, k => if k1 = k then some o1 else lookupOut rest k

/-- JS member write on an outputs object. -/
def setOut : OutMap → String → Output → OutMap
  | [], k, o => [(k, o)]
  | (k1, o1) :: rest, k, o =>
      if k1 = k then (k, o) :: rest else (k1, o1) :: setOut rest k o

/-- JS `a || b` for the prefix choice `this.config.exportPrefix ||
this.config.prefix` (source line 358). -/
def jsOrStr (a : Option String) (b : String) : String :=
  match a with
  | some s => if s != "" then s else b
  | none => b

/-- The ad-hoc rule built inside `applyOnOutput` (source line 356):
`new TypeSpec(new TypeID("CUSTOM", "Output", "Export"),
{namePropIncludesTypeName: false})`. -/
def outputSpec : TypeSpec :=
  specNoTypeName ⟨"CUSTOM", "Output", "Export"⟩

/-- `applyOnOutput` (source lines 351-360): ensure the `Export` block
exists, then apply the output rule with the block itself as the prior
view.  The `if(output["Export"])` guard is always true after the `|| {}`
materialization, since `{}` is truthy.  The pass only calls this with
present keys. -/
def applyOnOutput (cfg : Config) (outputs : OutMap) (logicalName : String) :
    OutMap :=
  match lookupOut outputs logicalName with
  | none => outputs
  | some output =>
    let eb := output.exportBlock.getD []
    let newEb := outputSpec.applyType eb (some eb)
      (jsOrStr cfg.exportPfx cfg.pfx) logicalName cfg
    setOut outputs logicalName { output with exportBlock := some newEb }

/-- The resource loop of `applyOnCloudFormationTemplate` (source lines
366-368), folded over the key list captured before the loop starts.  A
thrown error aborts the remainder of the loop. -/
def applyOnResourcesList (cfg : Config) (templateResources : Option ResMap) :
    List String → ResMap → List String →
    Except PluginError (ResMap × List String)
  | [], resources, diags => .ok (resources, diags)
  | k :: ks, resources, diags =>
    match applyOnResource cfg resources templateResources k with
    | .error e => .error e
    | .ok (resources2, d) =>
        applyOnResourcesList cfg templateResources ks resources2 (diags ++ d)

/-- The full resource pass over a resources object. -/
def resourcesPass (cfg : Config) (resources : ResMap)
    (templateResources : Option ResMap) :
    Except PluginError (ResMap × List String) :=
  applyOnResourcesList cfg templateResources (resources.map (fun e => e.1))
    resources []

/-- The output loop of `applyOnCloudFormationTemplate` (source lines
373-375). -/
def applyOnOutputsList (cfg : Config) : List String → OutMap → OutMap
  | [], outputs => outputs
  | k :: ks, outputs => applyOnOutputsList cfg ks (applyOnOutput cfg outputs k)

/-- The full export pass over an outputs object. -/
def outputsPass (cfg : Config) (outputs : OutMap) : OutMap :=
  applyOnOutputsList cfg (outputs.map (fun e => e.1)) outputs

/-- A CloudFormation template: the two members the plugin touches. -/
structure CFTemplate where
  resources : Option ResMap
  outputs : Option OutMap

/-- `applyOnCloudFormationTemplate` (source lines 362-377).  Resources are
processed first; the outputs loop runs only when `config.generateExports`
is truthy.  When a member is absent, `|| {}` materializes a fresh object
that is not attached to the template, so the template keeps the member
absent. -/
def applyOnCloudFormationTemplate (cfg : Config) (cf : CFTemplate)
    (templateResources : Option ResMap) :
    Except PluginError (CFTemplate × List String) :=
  match resourcesPass cfg (cf.resources.getD []) templateResources with
  | .error e => .error e
  | .ok (res2, diags) =>
    let outs2 :=
      if truthy cfg.generateExports then
        cf.outputs.map (fun outs => outputsPass cfg outs)
      else cf.outputs
    .ok ({ resources := cf.resources.map (fun _ => res2), outputs := outs2 }, diags)

/-- A resource-map entry that reprocessing against itself as the prior view
leaves unchanged: its tag parses, and when a rule matches, its materialized
properties are a fixed point of `applyType` with themselves as prior. -/
def EntryStable (cfg : Config) (k : String) (res : Resource) : Prop :=
  ∃ tag, res.typeTag = some (JValue.str tag) ∧ tag ≠ "" ∧
    ∃ tr tp tn, execTypeTag tag = some (tr, tp, tn) ∧
      ∀ sp, typeSpecs.find? (fun s => s.isApplicable ⟨tr, tp, tn⟩) = some sp →
        ∃ P, res.props = some P ∧ sp.applyType P (some P) cfg.pfx k cfg = P

/-- Whether an `Except` result is a success. -/
def isOkE (e : Except PluginError Config) : Bool :=
  match e with
  | .ok _ => true
  | .error _ => false

/-- The boolean-valued summary of exactly the checks `initializeConfig`
performs: `prefix` a non-empty string, `exportPrefix` undefined or a
non-empty string, the two flag fields booleans.  `generateExports` does not
occur. -/
def rawValidB (raw : RawConfig) : Bool :=
  let pfxV := raw.pfx.getD (JValue.str "")
  let rmV := raw.removeLambdaFunctionSuffix.getD (JValue.bool true)
  let lwV := raw.logMissingTypeBehaviourWarning.getD (JValue.bool true)
  pfxV.isStr && pfxV.strD != "" &&
    (match raw.exportPfx with
     | some ev => ev.isStr && ev.strD != ""
     | none => true) &&
    rmV.isBool && lwV.isBool

/-- The configuration `initializeConfig` produces on success. -/
def configOf (raw : RawConfig) : Config :=
  { pfx := (raw.pfx.getD (JValue.str "")).strD
    exportPfx := raw.exportPfx.map (fun ev => ev.strD)
    generateExports := raw.generateExports.getD (JValue.bool false)
    removeLambdaFunctionSuffix :=
      (raw.removeLambdaFunctionSuffix.getD (JValue.bool true)).boolD
    logMissingTypeBehaviourWarning :=
      (raw.logMissingTypeBehaviourWarning.getD (JValue.bool true)).boolD }

/-- The `Policies` list of a declaration, when present and an array. -/
def policiesAt (m : ResMap) (ln : String) : Option (List JValue) :=
  match lookupRes m ln with
  | some r =>
      match r.props with
      | some props =>
          match getProp props "Policies" with
          | some (.arr l) => some l
          | _ => none
      | none => none
  | none => none

/-- The `PolicyName` member of element `i` of a declaration's `Policies`
list, when that element is an object. -/
def policyLabelAt (m : ResMap) (ln : String) (i : Nat) : Option JValue :=
  match policiesAt m ln with
  | some l =>
      match l.get? i with
      | some (.obj f) => getProp f "PolicyName"
      | _ => none
  | none => none

/-- Whether the prior (template) view carries a truthy value at `key` for
logical id `ln`: requires a template-resources object, an entry for `ln`,
a `Properties` member, and a truthy value at `key`. -/
def priorTruthy (T : Option ResMap) (ln key : String) : Bool :=
  match (T.bind (fun trs => lookupRes trs ln)).bind (fun tr2 => tr2.props) with
  | none => false
  | some pp =>
      match getProp pp key with
      | none => false
      | some v => truthy v

/-
Concrete inputs used by the witnesses and counterexamples.
-/

/-- A valid configuration with warnings enabled. -/
def cfgW : Config :=
  { pfx := "app-", exportPfx := none, generateExports := JValue.bool false,
    removeLambdaFunctionSuffix := true, logMissingTypeBehaviourWarning := true }

/-- `cfgW` with the missing-type warning disabled. -/
def cfgNoWarn : Config :=
  { cfgW with logMissingTypeBehaviourWarning := false }

/-- A valid configuration with exports enabled and an export prefix. -/
def cfgExp : Config :=
  { pfx := "app-", exportPfx := some "exp-", generateExports := JValue.bool true,
    removeLambdaFunctionSuffix := true, logMissingTypeBehaviourWarning := true }

/-- One IAM role declaration without properties. -/
def resW : ResMap :=
  [("MyRole", { typeTag := some (.str "AWS::IAM::Role"), props := none })]

/-- `resW` after one pass of name insertion with `cfgW`. -/
def resW1 : ResMap :=
  [("MyRole", { typeTag := some (.str "AWS::IAM::Role"),
                props := some [("RoleName", .str "app-my-role")] })]

/-- A declaration whose type tag matches no rule. -/
def resC3 : ResMap :=
  [("Unmatched", { typeTag := some (.str "AWS::Foo::Bar"),
                   props := some [("Keep", .str "v")] })]

/-- The two diagnostic strings the unmatched-type branch emits for the tag
of `resC3`. -/
def diagsC3 : List String :=
  [plgLog "Behaviour for Resource Type \"AWS::Foo::Bar\" is not specified!",
   plgLog "Create a GitHub Issue for it to be added to the plugin."]

/-- A declaration whose type tag has an empty third segment: it fails the
spec's one-or-more-word-characters pattern but matches the code's
zero-or-more regex. -/
def resC4 : ResMap :=
  [("BadShape", { typeTag := some (.str "AWS::Lambda::"),
                  props := some [("FunctionName", .str "keep")] })]

/-- A declaration whose type tag matches the regex not at all. -/
def resC4b : ResMap :=
  [("NoSegments", { typeTag := some (.str "BadTag"), props := none })]

/-- A raw options object whose `generateExports` is the string `"yes"`
while every validated field is valid. -/
def rawC5 : RawConfig :=
  { pfx := some (.str "app-"), exportPfx := none,
    generateExports := some (.str "yes"),
    removeLambdaFunctionSuffix := none, logMissingTypeBehaviourWarning := none }

/-- The configuration `initializeConfig` accepts for `rawC5`. -/
def cfgC5 : Config :=
  { pfx := "app-", exportPfx := none, generateExports := JValue.str "yes",
    removeLambdaFunctionSuffix := true, logMissingTypeBehaviourWarning := true }

/-- A declaration whose `Policies` list consists of one primitive (string)
element. -/
def resC6 : ResMap :=
  [("Fn", { typeTag := some (.str "AWS::IAM::Role"),
            props := some [("Policies", .arr [.str "p"])] })]

/-- A declaration carrying its own `RoleName` value, with no prior view. -/
def resC10 : ResMap :=
  [("MyRole", { typeTag := some (.str "AWS::IAM::Role"),
                props := some [("RoleName", .str "preexisting")] })]

/-- One output declaration without an export block. -/
def outW : OutMap :=
  [("MyOut", { exportBlock := none })]

/-- One output declaration whose export block already names a value. -/
def outW2 : OutMap :=
  [("Has", { exportBlock := some [("Name", .str "user-chosen")] })]

/-
Lemmas and theorems.
-/

theorem getProp_setProp_self (l : Props) (k : String) (v : JValue) :
    getProp (setProp l k v) k = some v := by
  induction l with
  | nil => simp [setProp, getProp]
  | cons hd tl ih =>
      obtain ⟨k1, v1⟩ := hd
      by_cases h : k1 = k
      · simp [setProp, h, getProp]
      · simp [setProp, h, getProp, ih]

theorem getProp_setProp_ne (l : Props) (k k2 : String) (v : JValue)
    (h : k2 ≠ k) : getProp (setProp l k v) k2 = getProp l k2 := by
  have h3 : ¬ (k = k2) := fun hh => h hh.symm
  induction l with
  | nil => simp [setProp, getProp, h3]
  | cons hd tl ih =>
      obtain ⟨k1, v1⟩ := hd
      by_cases h1 : k1 = k
      · subst h1
        simp [setProp, getProp, h3]
      · simp [setProp, h1, getProp, ih]

theorem setProp_getProp_eq (l : Props) (k : String) (v : JValue)
    (h : getProp l k = some v) : setProp l k v = l := by
  induction l with
  | nil => simp [getProp] at h
  | cons hd tl ih =>
      obtain ⟨k1, v1⟩ := hd
      by_cases h1 : k1 = k
      · subst h1
        simp [getProp] at h
        simp [setProp, h]
      · simp [getProp, h1] at h
        simp [setProp, h1, ih h]

theorem lookupRes_setRes_self (m : ResMap) (k : String) (r : Resource) :
    lookupRes (setRes m k r) k = some r := by
  induction m with
  | nil => simp [setRes, lookupRes]
  | cons hd tl ih =>
      obtain ⟨k1, r1⟩ := hd
      by_cases h : k1 = k
      · simp [setRes, h, lookupRes]
      · simp [setRes, h, lookupRes, ih]

theorem lookupRes_setRes_ne (m : ResMap) (k k2 : String) (r : Resource)
    (h : k2 ≠ k) : lookupRes (setRes m k r) k2 = lookupRes m k2 := by
  have h3 : ¬ (k = k2) := fun hh => h hh.symm
  induction m with
  | nil => simp [setRes, lookupRes, h3]
  | cons hd tl ih =>
      obtain ⟨k1, r1⟩ := hd
      by_cases h1 : k1 = k
      · subst h1
        simp [setRes, lookupRes, h3]
      · simp [setRes, h1, lookupRes, ih]

theorem setRes_eq_of_lookup (m : ResMap) (k : String) (r : Resource)
    (h : lookupRes m k = some r) : setRes m k r = m := by
  induction m with
  | nil => simp [lookupRes] at h
  | cons hd tl ih =>
      obtain ⟨k1, r1⟩ := hd
      by_cases h1 : k1 = k
      · subst h1
        simp [lookupRes] at h
        simp [setRes, h]
      · simp [lookupRes, h1] at h
        simp [setRes, h1, ih h]

theorem map_fst_setRes (m : ResMap) (k : String) (r r0 : Resource)
    (h : lookupRes m k = some r0) :
    (setRes m k r).map (fun e => e.1) = m.map (fun e => e.1) := by
  induction m with
  | nil => simp [lookupRes] at h
  | cons hd tl ih =>
      obtain ⟨k1, r1⟩ := hd
      by_cases h1 : k1 = k
      · subst h1
        simp [setRes]
      · simp [lookupRes, h1] at h
        simp [setRes, h1, ih h]

theorem lookupOut_setOut_self (m : OutMap) (k : String) (o : Output) :
    lookupOut (setOut m k o) k = some o := by
  induction m with
  | nil => simp [setOut, lookupOut]
  | cons hd tl ih =>
      obtain ⟨k1, o1⟩ := hd
      by_cases h : k1 = k
      · simp [setOut, h, lookupOut]
      · simp [setOut, h, lookupOut, ih]

theorem setOut_eq_of_lookup (m : OutMap) (k : String) (o : Output)
    (h : lookupOut m k = some o) : setOut m k o = m := by
  induction m with
  | nil => simp [lookupOut] at h
  | cons hd tl ih =>
      obtain ⟨k1, o1⟩ := hd
      by_cases h1 : k1 = k
      · subst h1
        simp [lookupOut] at h
        simp [setOut, h]
      · simp [lookupOut, h1] at h
        simp [setOut, h1, ih h]

theorem applyType_noop (sp : TypeSpec) (e : Props) (le : Option Props)
    (p ln : String) (cfg : Config) (h : sp.noNameInsertion = true) :
    sp.applyType e le p ln cfg = e := by
  simp [TypeSpec.applyType, TypeSpec.isNameInserted, h]

theorem applyType_eq_setProp (sp : TypeSpec) (e : Props) (le : Option Props)
    (p ln : String) (cfg : Config) (h : sp.noNameInsertion = false) :
    sp.applyType e le p ln cfg =
      setProp e sp.getNameProp (writeVal sp le p ln cfg) := by
  simp [TypeSpec.applyType, TypeSpec.isNameInserted, h, writeVal]

theorem writeVal_kind (sp : TypeSpec) (le : Option Props) (p ln : String)
    (cfg : Config) :
    truthy (writeVal sp le p ln cfg) = true ∨
      writeVal sp le p ln cfg = JValue.str (sp.getNameValue p ln cfg) := by
  unfold writeVal
  split
  · rename_i v hv
    by_cases ht : truthy v
    · left
      simp [ht]
    · right
      simp [ht]
  · right
    rfl

theorem writeVal_self (sp : TypeSpec) (P : Props) (p ln : String)
    (cfg : Config) (w : JValue) (hg : getProp P sp.getNameProp = some w)
    (hkind : truthy w = true ∨ w = JValue.str (sp.getNameValue p ln cfg)) :
    writeVal sp (some P) p ln cfg = w := by
  unfold writeVal
  simp only [Option.getD_some, hg]
  rcases hkind with ht | he
  · simp [ht]
  · by_cases h2 : truthy w
    · simp [h2]
    · simp [h2, he]

theorem applyType_restable (sp : TypeSpec) (e : Props) (le : Option Props)
    (p ln : String) (cfg : Config) :
    sp.applyType (sp.applyType e le p ln cfg)
      (some (sp.applyType e le p ln cfg)) p ln cfg =
      sp.applyType e le p ln cfg := by
  by_cases h : sp.noNameInsertion
  · rw [applyType_noop sp e le p ln cfg h]
    exact applyType_noop sp e (some e) p ln cfg h
  · have h2 : sp.noNameInsertion = false := by
      simpa using h
    rw [applyType_eq_setProp sp e le p ln cfg h2]
    rw [applyType_eq_setProp sp
      (setProp e sp.getNameProp (writeVal sp le p ln cfg))
      (some (setProp e sp.getNameProp (writeVal sp le p ln cfg))) p ln cfg h2]
    rw [writeVal_self sp _ p ln cfg _ (getProp_setProp_self _ _ _)
      (writeVal_kind sp le p ln cfg)]
    exact setProp_getProp_eq _ _ _ (getProp_setProp_self _ _ _)

theorem checkType_str (tag : String) (h : tag ≠ "") (ln : String) :
    checkType (some (JValue.str tag)) ln = .ok tag := by
  simp [checkType, truthy, h]

theorem checkType_ok (t : Option JValue) (ln tag : String)
    (h : checkType t ln = .ok tag) :
    t = some (JValue.str tag) ∧ tag ≠ "" := by
  cases t with
  | none => simp [checkType] at h
  | some v =>
      cases v with
      | str s =>
          by_cases hs : s = ""
          · subst hs
            simp [checkType, truthy] at h
          · unfold checkType at h
            simp [truthy, hs] at h
            subst h
            exact ⟨rfl, hs⟩
      | num n =>
          unfold checkType at h
          simp [truthy] at h
          split at h <;> simp at h
      | bool b =>
          unfold checkType at h
          simp [truthy] at h
          split at h <;> simp at h
      | arr l =>
          unfold checkType at h
          simp [truthy] at h
      | obj f =>
          unfold checkType at h
          simp [truthy] at h

theorem applyOnResource_matched
    (cfg : Config) (resources : ResMap) (T : Option ResMap) (ln : String)
    (res : Resource) (tag tr tp tn : String) (sp : TypeSpec)
    (h1 : lookupRes resources ln = some res)
    (h2 : res.typeTag = some (JValue.str tag)) (h3 : tag ≠ "")
    (h4 : execTypeTag tag = some (tr, tp, tn))
    (h5 : typeSpecs.find? (fun s => s.isApplicable ⟨tr, tp, tn⟩) = some sp) :
    applyOnResource cfg resources T ln =
      .ok (setRes resources ln
        { res with props := some (sp.applyType (res.props.getD [])
            ((T.bind (fun trs => lookupRes trs ln)).bind (fun tr2 => tr2.props))
            cfg.pfx ln cfg) }, []) := by
  unfold applyOnResource
  rw [h1]
  simp only [h2, checkType_str tag h3 ln, h4, h5]

theorem applyOnResource_unmatched
    (cfg : Config) (resources : ResMap) (T : Option ResMap) (ln : String)
    (res : Resource) (tag tr tp tn : String)
    (h1 : lookupRes resources ln = some res)
    (h2 : res.typeTag = some (JValue.str tag)) (h3 : tag ≠ "")
    (h4 : execTypeTag tag = some (tr, tp, tn))
    (h5 : typeSpecs.find? (fun s => s.isApplicable ⟨tr, tp, tn⟩) = none) :
    applyOnResource cfg resources T ln = .ok (resources, missingTypeDiags cfg tag) := by
  unfold applyOnResource
  rw [h1]
  simp only [h2, checkType_str tag h3 ln, h4, h5]

theorem applyOnResource_badtag
    (cfg : Config) (resources : ResMap) (T : Option ResMap) (ln : String)
    (res : Resource) (tag : String)
    (h1 : lookupRes resources ln = some res)
    (h2 : res.typeTag = some (JValue.str tag)) (h3 : tag ≠ "")
    (h4 : execTypeTag tag = none) :
    applyOnResource cfg resources T ln = .error PluginError.jsTypeError := by
  unfold applyOnResource
  rw [h1]
  simp only [h2, checkType_str tag h3 ln, h4]

theorem entryStable_self (cfg : Config) (S : ResMap) (k : String)
    (res : Resource) (hres : lookupRes S k = some res)
    (hst : EntryStable cfg k res) :
    ∃ d, applyOnResource cfg S (some S) k = .ok (S, d) := by
  obtain ⟨tag, h2, h3, tr, tp, tn, h4, hsp⟩ := hst
  cases hfind : typeSpecs.find? (fun s => s.isApplicable ⟨tr, tp, tn⟩) with
  | none =>
      exact ⟨missingTypeDiags cfg tag,
        applyOnResource_unmatched cfg S (some S) k res tag tr tp tn hres h2 h3 h4 hfind⟩
  | some sp =>
      obtain ⟨P, hP, hfix⟩ := hsp sp hfind
      refine ⟨[], ?_⟩
      rw [applyOnResource_matched cfg S (some S) k res tag tr tp tn sp hres h2 h3 h4 hfind]
      have hprior : ((Option.some S).bind (fun trs => lookupRes trs k)).bind
          (fun tr2 => tr2.props) = some P := by
        simp [Option.bind, hres, hP]
      rw [hprior, hP]
      simp only [Option.getD_some]
      rw [hfix]
      have hres2 : { res with props := some P } = res := by
        cases res with
        | mk tt pp => simp_all
      rw [hres2, setRes_eq_of_lookup S k res hres]

theorem step_establishes (cfg : Config) (S : ResMap) (T : Option ResMap)
    (k : String) (S2 : ResMap) (d : List String)
    (h : applyOnResource cfg S T k = .ok (S2, d)) :
    S2.map (fun e => e.1) = S.map (fun e => e.1) ∧
    (∃ res2, lookupRes S2 k = some res2 ∧ EntryStable cfg k res2) ∧
    (∀ k2, k2 ≠ k → lookupRes S2 k2 = lookupRes S k2) := by
  cases hl : lookupRes S k with
  | none =>
      unfold applyOnResource at h
      rw [hl] at h
      simp at h
  | some res =>
      unfold applyOnResource at h
      rw [hl] at h
      simp only [] at h
      cases hck : checkType res.typeTag k with
      | error e =>
          rw [hck] at h
          simp at h
      | ok tag =>
          obtain ⟨hty, htag⟩ := checkType_ok res.typeTag k tag hck
          rw [hck] at h
          simp only [] at h
          cases hexec : execTypeTag tag with
          | none =>
              rw [hexec] at h
              simp at h
          | some trio =>
              obtain ⟨tr, tp, tn⟩ := trio
              rw [hexec] at h
              simp only [] at h
              cases hfind : typeSpecs.find? (fun s => s.isApplicable ⟨tr, tp, tn⟩) with
              | none =>
                  rw [hfind] at h
                  simp only [Except.ok.injEq, Prod.mk.injEq] at h
                  obtain ⟨hS2, hd⟩ := h
                  subst hS2
                  refine ⟨rfl, ⟨res, hl, ?_⟩, fun k2 _ => rfl⟩
                  exact ⟨tag, hty, htag, tr, tp, tn, hexec, fun sp hsp => by
                    rw [hfind] at hsp
                    exact absurd hsp (by simp)⟩
              | some sp =>
                  rw [hfind] at h
                  simp only [Except.ok.injEq, Prod.mk.injEq] at h
                  obtain ⟨hS2, hd⟩ := h
                  subst hS2
                  constructor
                  · exact map_fst_setRes S k _ res hl
                  constructor
                  · refine ⟨_, lookupRes_setRes_self S k _, ?_⟩
                    refine ⟨tag, hty, htag, tr, tp, tn, hexec, fun sp2 hsp2 => ?_⟩
                    rw [hfind] at hsp2
                    have hsp3 : sp2 = sp := by
                      injection hsp2 with hsp3
                      exact hsp3.symm
                    subst hsp3
                    refine ⟨_, rfl, ?_⟩
                    exact applyType_restable sp2 (res.props.getD [])
                      ((T.bind (fun trs => lookupRes trs k)).bind (fun tr2 => tr2.props))
                      cfg.pfx k cfg
                  · intro k2 hk2
                    exact lookupRes_setRes_ne S k k2 _ hk2

theorem pass_establishes (cfg : Config) (T : Option ResMap) :
    ∀ (ks : List String) (S : ResMap) (acc : List String) (S1 : ResMap)
      (D1 : List String),
      applyOnResourcesList cfg T ks S acc = .ok (S1, D1) →
      (S1.map (fun e => e.1) = S.map (fun e => e.1)) ∧
      (∀ k, k ∈ ks → ∃ res, lookupRes S1 k = some res ∧ EntryStable cfg k res) ∧
      (∀ k res, lookupRes S k = some res → EntryStable cfg k res →
        ∃ res2, lookupRes S1 k = some res2 ∧ EntryStable cfg k res2) := by
  intro ks
  induction ks with
  | nil =>
      intro S acc S1 D1 h
      unfold applyOnResourcesList at h
      simp only [Except.ok.injEq, Prod.mk.injEq] at h
      obtain ⟨hS, _⟩ := h
      subst hS
      exact ⟨rfl, fun k hk => absurd hk (List.not_mem_nil k),
        fun k res hlk hst => ⟨res, hlk, hst⟩⟩
  | cons k ks ih =>
      intro S acc S1 D1 h
      unfold applyOnResourcesList at h
      cases hstep : applyOnResource cfg S T k with
      | error e =>
          rw [hstep] at h
          simp at h
      | ok pr =>
          obtain ⟨S2, d⟩ := pr
          rw [hstep] at h
          simp only [] at h
          obtain ⟨hkeys2, ⟨res2, hlk2, hst2⟩, hpres⟩ :=
            step_establishes cfg S T k S2 d hstep
          obtain ⟨hkeys1, hmem, htrans⟩ := ih S2 (acc ++ d) S1 D1 h
          refine ⟨hkeys1.trans hkeys2, ?_, ?_⟩
          · intro k1 hk1
            rcases List.mem_cons.mp hk1 with hk1 | hk1
            · subst hk1
              exact htrans k1 res2 hlk2 hst2
            · exact hmem k1 hk1
          · intro k1 res hlk hst
            by_cases hkk : k1 = k
            · subst hkk
              exact htrans k1 res2 hlk2 hst2
            · exact htrans k1 res (by rw [hpres k1 hkk]; exact hlk) hst

theorem pass_noop (cfg : Config) :
    ∀ (ks : List String) (S : ResMap) (acc : List String),
      (∀ k, k ∈ ks → ∃ d, applyOnResource cfg S (some S) k = .ok (S, d)) →
      ∃ D, applyOnResourcesList cfg (some S) ks S acc = .ok (S, D) := by
  intro ks
  induction ks with
  | nil =>
      intro S acc _
      exact ⟨acc, rfl⟩
  | cons k ks ih =>
      intro S acc hall
      obtain ⟨d, hd⟩ := hall k (List.mem_cons_self k ks)
      obtain ⟨D, hD⟩ := ih S (acc ++ d) (fun k2 hk2 => hall k2 (List.mem_cons_of_mem k hk2))
      refine ⟨D, ?_⟩
      unfold applyOnResourcesList
      rw [hd]
      exact hD

/-- C1: for every rule, target and prior property mapping, prefix, logical
name and config, `applyType` is a no-op when the rule's naming is disabled;
otherwise it sets the computed property key to the prior mapping's value at
that key when that value is truthy, to the synthesized name otherwise, and
changes no other key of the target mapping. -/
theorem claim_C1_applyType (sp : TypeSpec) (e : Props) (le : Option Props)
    (p ln : String) (cfg : Config) :
    (sp.noNameInsertion = true → sp.applyType e le p ln cfg = e) ∧
    (sp.noNameInsertion = false →
      (∀ v, getProp (le.getD []) sp.getNameProp = some v → truthy v = true →
        getProp (sp.applyType e le p ln cfg) sp.getNameProp = some v) ∧
      ((∀ v, getProp (le.getD []) sp.getNameProp = some v → truthy v = false) →
        getProp (sp.applyType e le p ln cfg) sp.getNameProp =
          some (JValue.str (sp.getNameValue p ln cfg))) ∧
      (∀ k2, k2 ≠ sp.getNameProp →
        getProp (sp.applyType e le p ln cfg) k2 = getProp e k2)) := by
  constructor
  · intro h
    exact applyType_noop sp e le p ln cfg h
  · intro h
    rw [applyType_eq_setProp sp e le p ln cfg h]
    refine ⟨?_, ?_, ?_⟩
    · intro v hv ht
      have hw : writeVal sp le p ln cfg = v := by
        unfold writeVal
        rw [hv]
        simp [ht]
      rw [hw]
      exact getProp_setProp_self e sp.getNameProp v
    · intro hfalsy
      have hw : writeVal sp le p ln cfg = JValue.str (sp.getNameValue p ln cfg) := by
        unfold writeVal
        cases hv : getProp (le.getD []) sp.getNameProp with
        | none => rfl
        | some v =>
            simp [hfalsy v hv]
      rw [hw]
      exact getProp_setProp_self e sp.getNameProp _
    · intro k2 hk2
      exact getProp_setProp_ne e sp.getNameProp k2 _ hk2

/-- Witness for C1 at a concrete input: the IAM role rule, a target that
already carries its own `RoleName`, and no prior view — the fresh name is
written. -/
theorem claim_C1_applyType_witness :
    getProp ((defaultSpec ⟨"AWS", "IAM", "Role"⟩).applyType
        [("RoleName", JValue.str "mine")] none "app-" "MyRole" cfgW)
      (defaultSpec ⟨"AWS", "IAM", "Role"⟩).getNameProp =
      some (JValue.str ((defaultSpec ⟨"AWS", "IAM", "Role"⟩).getNameValue
        "app-" "MyRole" cfgW)) :=
  ((claim_C1_applyType (defaultSpec ⟨"AWS", "IAM", "Role"⟩)
      [("RoleName", JValue.str "mine")] none "app-" "MyRole" cfgW).2
    (by rfl)).2.1 (fun v hv => Option.noConfusion hv)

/-- C2: for every resource collection and config, running the naming pass
twice in succession — the second run receiving the first run's output as
the prior collection — returns the first run's resource collection
unchanged. -/
theorem claim_C2_idempotent (cfg : Config) (R : ResMap) (T : Option ResMap)
    (R1 : ResMap) (D1 : List String)
    (h : resourcesPass cfg R T = .ok (R1, D1)) :
    ∃ D2, resourcesPass cfg R1 (some R1) = .ok (R1, D2) := by
  unfold resourcesPass at h ⊢
  obtain ⟨hkeys, hstab, _⟩ :=
    pass_establishes cfg T (R.map (fun e => e.1)) R [] R1 D1 h
  rw [hkeys]
  refine pass_noop cfg (R.map (fun e => e.1)) R1 [] ?_
  intro k hk
  obtain ⟨res, hl, hes⟩ := hstab k hk
  exact entryStable_self cfg R1 k res hl hes

/-- Witness for C2 at a concrete input: one IAM role declaration. -/
theorem claim_C2_idempotent_witness :
    ∃ D2, resourcesPass cfgW resW1 (some resW1) = .ok (resW1, D2) :=
  claim_C2_idempotent cfgW resW none resW1 [] (by rfl)

/-- C3 counterexample: an unmatched declaration processed with the warning
flag enabled leaves the collection untouched and does not abort, but emits
TWO diagnostic strings, not exactly one as the claim states. -/
theorem claim_C3_counterexample :
    applyOnResource cfgW resC3 none "Unmatched" = Except.ok (resC3, diagsC3) ∧
    cfgW.logMissingTypeBehaviourWarning = true ∧
    diagsC3.length = 2 := by
  exact ⟨by rfl, by rfl, by rfl⟩

/-- C3 as amended: an unmatched declaration leaves the resource collection
byte-for-byte unchanged and does not abort the pass, and the branch emits
exactly TWO diagnostic strings when `logMissingTypeBehaviourWarning` is
true and zero when it is false. -/
theorem claim_C3_unmatched (cfg : Config) (m : ResMap) (T : Option ResMap)
    (ln : String) (res : Resource) (tag tr tp tn : String)
    (h1 : lookupRes m ln = some res)
    (h2 : res.typeTag = some (JValue.str tag))
    (h4 : execTypeTag tag = some (tr, tp, tn))
    (h5 : typeSpecs.find? (fun s => s.isApplicable ⟨tr, tp, tn⟩) = none) :
    applyOnResource cfg m T ln = .ok (m, missingTypeDiags cfg tag) ∧
    (missingTypeDiags cfg tag).length =
      (if cfg.logMissingTypeBehaviourWarning then 2 else 0) := by
  have h3 : tag ≠ "" := by
    intro he
    subst he
    have hz : execTypeTag "" = none := rfl
    rw [hz] at h4
    exact Option.noConfusion h4
  refine ⟨applyOnResource_unmatched cfg m T ln res tag tr tp tn h1 h2 h3 h4 h5, ?_⟩
  unfold missingTypeDiags
  by_cases hw : cfg.logMissingTypeBehaviourWarning
  · simp [hw]
  · simp [hw]

/-- Witness for the amended C3 at a concrete unmatched declaration. -/
theorem claim_C3_unmatched_witness :
    applyOnResource cfgW resC3 none "Unmatched" =
      .ok (resC3, missingTypeDiags cfgW "AWS::Foo::Bar") :=
  (claim_C3_unmatched cfgW resC3 none "Unmatched"
    { typeTag := some (.str "AWS::Foo::Bar"), props := some [("Keep", .str "v")] }
    "AWS::Foo::Bar" "AWS" "Foo" "Bar" (by rfl) (by rfl) (by rfl) (by rfl)).1

/-- C4 counterexample: the tag `"AWS::Lambda::"` is present, a string, and
fails the spec's one-or-more-word-characters three-segment pattern, yet the
pass raises no fatal error at all — the declaration is tolerated as an
unmatched type and nothing changes. -/
theorem claim_C4_counterexample :
    specStrictTagPattern "AWS::Lambda::" = false ∧
    applyOnResource cfgNoWarn resC4 none "BadShape" = Except.ok (resC4, []) := by
  exact ⟨by rfl, by rfl⟩

/-- C4 as amended: a non-empty string tag that fails even the code's
zero-or-more-word-characters regex aborts the pass with a raw
`TypeError` before any mutation; that error is the same constant for every
resource collection and logical id, so it does not name the offending
logical id.  (A tag with empty segments that still matches the relaxed
regex is instead tolerated as an unmatched type; an empty-string tag takes
the missing-type error path.) -/
theorem claim_C4_badtag (cfg : Config) (m : ResMap) (T : Option ResMap)
    (ln : String) (res : Resource) (tag : String)
    (h1 : lookupRes m ln = some res)
    (h2 : res.typeTag = some (JValue.str tag)) (h3 : tag ≠ "")
    (h4 : execTypeTag tag = none) :
    applyOnResource cfg m T ln = .error PluginError.jsTypeError ∧
    (∀ (m2 : ResMap) (ln2 : String) (res2 : Resource),
      lookupRes m2 ln2 = some res2 → res2.typeTag = some (JValue.str tag) →
      applyOnResource cfg m2 T ln2 = .error PluginError.jsTypeError) := by
  refine ⟨applyOnResource_badtag cfg m T ln res tag h1 h2 h3 h4, ?_⟩
  intro m2 ln2 res2 h1b h2b
  exact applyOnResource_badtag cfg m2 T ln2 res2 tag h1b h2b h3 h4

/-- Witness for the amended C4 at the concrete tag `"BadTag"`. -/
theorem claim_C4_badtag_witness :
    applyOnResource cfgW resC4b none "NoSegments" =
      .error PluginError.jsTypeError :=
  (claim_C4_badtag cfgW resC4b none "NoSegments"
    { typeTag := some (.str "BadTag"), props := none } "BadTag"
    (by rfl) (by rfl) (by decide) (by rfl)).1

theorem initializeConfig_cases (raw : RawConfig) :
    (rawValidB raw = true ∧ initializeConfig raw = .ok (configOf raw)) ∨
    (rawValidB raw = false ∧ isOkE (initializeConfig raw) = false) := by
  rcases hx : raw.exportPfx with _ | ev <;>
      simp only [initializeConfig, initializeConfigRest, rawValidB, configOf,
        isOkE, hx] <;>
    split_ifs <;> simp_all

/-- C5 as amended: `initializeConfig` succeeds exactly when `prefix` is a
non-empty string, `exportPrefix` is undefined or a non-empty string, and
the two flag fields are booleans; `generateExports` is never validated —
any value for it leaves acceptance unchanged — and on success the raw
values (with destructuring defaults applied) are stored as given. -/
theorem claim_C5_validation (raw : RawConfig) :
    (isOkE (initializeConfig raw) = rawValidB raw) ∧
    (∀ g, isOkE (initializeConfig { raw with generateExports := g }) =
      isOkE (initializeConfig raw)) ∧
    (rawValidB raw = true → initializeConfig raw = .ok (configOf raw)) := by
  have hmain : ∀ r : RawConfig, isOkE (initializeConfig r) = rawValidB r := by
    intro r
    rcases initializeConfig_cases r with ⟨hv, he⟩ | ⟨hv, he⟩
    · rw [hv, he]
      rfl
    · rw [hv, he]
  refine ⟨hmain raw, ?_, ?_⟩
  · intro g
    rw [hmain raw, hmain { raw with generateExports := g }]
    rfl
  · intro hv
    rcases initializeConfig_cases raw with ⟨_, he⟩ | ⟨hv2, _⟩
    · exact he
    · rw [hv] at hv2
      exact absurd hv2 (by simp)

/-- Witness for the amended C5: the raw options of `rawC5` are accepted
and stored, including the non-boolean `generateExports`. -/
theorem claim_C5_validation_witness :
    initializeConfig rawC5 = Except.ok (configOf rawC5) :=
  (claim_C5_validation rawC5).2.2 (by rfl)

/-- C5 counterexample: a configuration whose `generateExports` is the
string `"yes"` — violating its declared boolean type — is accepted without
any error, and the truthy string is stored and will drive the exports
guard. -/
theorem claim_C5_counterexample :
    initializeConfig rawC5 = Except.ok cfgC5 ∧
    cfgC5.generateExports.isBool = false ∧
    truthy cfgC5.generateExports = true := by
  exact ⟨by rfl, by rfl, by rfl⟩

theorem mapWithIndex_length (f : Nat → JValue → JValue) :
    ∀ (n : Nat) (l : List JValue), (mapWithIndex f n l).length = l.length := by
  intro n l
  induction l generalizing n with
  | nil => rfl
  | cons x xs ih => simp [mapWithIndex, ih]

theorem mapWithIndex_get (f : Nat → JValue → JValue) :
    ∀ (l : List JValue) (n i : Nat) (h1 : i < l.length)
      (h2 : i < (mapWithIndex f n l).length),
      (mapWithIndex f n l).get ⟨i, h2⟩ = f (n + i) (l.get ⟨i, h1⟩) := by
  intro l
  induction l with
  | nil =>
      intro n i h1 h2
      exact absurd h1 (by simp)
  | cons x xs ih =>
      intro n i h1 h2
      cases i with
      | zero => simp [mapWithIndex]
      | succ j =>
          have h1b : j < xs.length := Nat.lt_of_succ_lt_succ h1
          have h2b : j < (mapWithIndex f (n + 1) xs).length := by
            rw [mapWithIndex_length]
            exact h1b
          have hstep : (mapWithIndex f n (x :: xs)).get ⟨j + 1, h2⟩ =
              (mapWithIndex f (n + 1) xs).get ⟨j, h2b⟩ := rfl
          rw [hstep, ih (n + 1) j h1b h2b]
          have harith : n + 1 + j = n + (j + 1) := by omega
          rw [harith]
          rfl

theorem policiesAt_some (m : ResMap) (ln : String) (pols : List JValue)
    (h : policiesAt m ln = some pols) :
    ∃ r props, lookupRes m ln = some r ∧ r.props = some props ∧
      getProp props "Policies" = some (.arr pols) := by
  unfold policiesAt at h
  cases hl : lookupRes m ln with
  | none =>
      rw [hl] at h
      simp at h
  | some r =>
      rw [hl] at h
      simp only [] at h
      cases hp : r.props with
      | none =>
          rw [hp] at h
          simp at h
      | some props =>
          rw [hp] at h
          simp only [] at h
          cases hg : getProp props "Policies" with
          | none =>
              rw [hg] at h
              simp at h
          | some v =>
              rw [hg] at h
              cases v <;> simp at h
              subst h
              exact ⟨r, props, rfl, hp, hg⟩

theorem policiesAt_none_noop (m : ResMap) (ln : String)
    (h : policiesAt m ln = none) : applyPolicyNamesOnResource m ln = m := by
  unfold policiesAt at h
  unfold applyPolicyNamesOnResource
  cases hl : lookupRes m ln with
  | none => rfl
  | some r =>
      rw [hl] at h
      simp only [] at h ⊢
      cases hp : r.props with
      | none => rfl
      | some props =>
          rw [hp] at h
          simp only [] at h ⊢
          cases hg : getProp props "Policies" with
          | none => rfl
          | some v =>
              rw [hg] at h
              cases v <;> simp at h ⊢

/-- C6 as amended: for every declaration with a `Policies` array, the
policy-naming pass keeps the array's length; every element that is an
object receives the member `PolicyName = "inline-policy-" + i`, replacing
any pre-existing value while leaving its other members untouched; a
primitive element is left unchanged and carries no label; and a resource
without a `Policies` array is untouched. -/
theorem claim_C6_policies :
    (∀ (m : ResMap) (ln : String) (pols : List JValue),
      policiesAt m ln = some pols →
      ∃ pols2, policiesAt (applyPolicyNamesOnResource m ln) ln = some pols2 ∧
        pols2.length = pols.length ∧
        ∀ (i : Nat) (h1 : i < pols.length) (h2 : i < pols2.length),
          (∀ f, pols.get ⟨i, h1⟩ = JValue.obj f →
            ∃ f2, pols2.get ⟨i, h2⟩ = JValue.obj f2 ∧
              getProp f2 "PolicyName" =
                some (JValue.str ("inline-policy-" ++ toString i)) ∧
              ∀ k2, k2 ≠ "PolicyName" → getProp f2 k2 = getProp f k2) ∧
          ((pols.get ⟨i, h1⟩).isObj = false →
            pols2.get ⟨i, h2⟩ = pols.get ⟨i, h1⟩)) ∧
    (∀ (m : ResMap) (ln : String), policiesAt m ln = none →
      applyPolicyNamesOnResource m ln = m) := by
  constructor
  · intro m ln pols h
    obtain ⟨r, props, hl, hp, hg⟩ := policiesAt_some m ln pols h
    have happly : applyPolicyNamesOnResource m ln =
        setRes m ln { r with props := some (setProp props "Policies"
          (.arr (mapWithIndex setPolicyName 0 pols))) } := by
      unfold applyPolicyNamesOnResource
      rw [hl]
      simp only [hp, hg]
    refine ⟨mapWithIndex setPolicyName 0 pols, ?_, mapWithIndex_length _ _ _, ?_⟩
    · unfold policiesAt
      rw [happly, lookupRes_setRes_self]
      simp only [getProp_setProp_self]
    · intro i h1 h2
      have hget : (mapWithIndex setPolicyName 0 pols).get ⟨i, h2⟩ =
          setPolicyName i (pols.get ⟨i, h1⟩) := by
        rw [mapWithIndex_get setPolicyName pols 0 i h1 h2]
        simp
      constructor
      · intro f hf
        rw [hget, hf]
        refine ⟨setProp f "PolicyName"
          (JValue.str ("inline-policy-" ++ toString i)), rfl,
          getProp_setProp_self _ _ _, ?_⟩
        intro k2 hk2
        exact getProp_setProp_ne f "PolicyName" k2 _ hk2
      · intro hprim
        rw [hget]
        cases hv : pols.get ⟨i, h1⟩ <;> simp [setPolicyName]
        rw [hv] at hprim
        simp [JValue.isObj] at hprim
  · exact policiesAt_none_noop

/-- Witness for the amended C6 at the concrete one-element list. -/
theorem claim_C6_policies_witness :
    ∃ pols2, policiesAt (applyPolicyNamesOnResource resC6 "Fn") "Fn" =
        some pols2 ∧
      pols2.length = [JValue.str "p"].length ∧
      ∀ (i : Nat) (h1 : i < [JValue.str "p"].length) (h2 : i < pols2.length),
        (∀ f, [JValue.str "p"].get ⟨i, h1⟩ = JValue.obj f →
          ∃ f2, pols2.get ⟨i, h2⟩ = JValue.obj f2 ∧
            getProp f2 "PolicyName" =
              some (JValue.str ("inline-policy-" ++ toString i)) ∧
            ∀ k2, k2 ≠ "PolicyName" → getProp f2 k2 = getProp f k2) ∧
        (([JValue.str "p"].get ⟨i, h1⟩).isObj = false →
          pols2.get ⟨i, h2⟩ = [JValue.str "p"].get ⟨i, h1⟩) :=
  claim_C6_policies.1 resC6 "Fn" [JValue.str "p"] (by rfl)

/-- C6 counterexample: a `Policies` sequence of length 1 whose only element
is the primitive string `"p"`: the pass leaves the resource untouched and
the element carries no `"inline-policy-0"` label afterwards, contradicting
the claim that every element of a sequence carries the label. -/
theorem claim_C6_counterexample :
    policiesAt resC6 "Fn" = some [JValue.str "p"] ∧
    applyPolicyNamesOnResource resC6 "Fn" = resC6 ∧
    policyLabelAt (applyPolicyNamesOnResource resC6 "Fn") "Fn" 0 = none := by
  exact ⟨by rfl, by rfl, by rfl⟩

/-- C7: export naming runs exactly when the (well-typed boolean)
`generateExports` is true; per output it creates an export block when
absent, uses the literal key `"Name"`, prefixes with `exportPrefix` when
set and with `prefix` otherwise, and leaves a truthy value already present
at `"Name"` in the block itself entirely unchanged. -/
theorem claim_C7_exports (cfg : Config) :
    outputSpec.getNameProp = "Name" ∧
    (∀ (cf : CFTemplate) (T : Option ResMap) (cf2 : CFTemplate)
      (D : List String) (b : Bool),
      cfg.generateExports = JValue.bool b →
      applyOnCloudFormationTemplate cfg cf T = .ok (cf2, D) →
      (b = false → cf2.outputs = cf.outputs) ∧
      (b = true → cf2.outputs = cf.outputs.map (fun outs => outputsPass cfg outs))) ∧
    (∀ (outs : OutMap) (ln : String) (out : Output),
      lookupOut outs ln = some out → out.exportBlock = none →
      lookupOut (applyOnOutput cfg outs ln) ln =
        some { out with exportBlock := some [("Name",
          JValue.str (outputSpec.getNameValue
            (jsOrStr cfg.exportPfx cfg.pfx) ln cfg))] }) ∧
    (∀ s, cfg.exportPfx = some s → s ≠ "" → jsOrStr cfg.exportPfx cfg.pfx = s) ∧
    (cfg.exportPfx = none → jsOrStr cfg.exportPfx cfg.pfx = cfg.pfx) ∧
    (∀ (outs : OutMap) (ln : String) (out : Output) (eb : Props) (v : JValue),
      lookupOut outs ln = some out → out.exportBlock = some eb →
      getProp eb "Name" = some v → truthy v = true →
      applyOnOutput cfg outs ln = outs) := by
  refine ⟨rfl, ?_, ?_, ?_, ?_, ?_⟩
  · intro cf T cf2 D b hb happly
    unfold applyOnCloudFormationTemplate at happly
    cases hrp : resourcesPass cfg (cf.resources.getD []) T with
    | error e =>
        rw [hrp] at happly
        simp at happly
    | ok pr =>
        obtain ⟨res2, diags⟩ := pr
        rw [hrp] at happly
        simp only [Except.ok.injEq, Prod.mk.injEq] at happly
        obtain ⟨hcf, _⟩ := happly
        subst hcf
        rw [hb]
        constructor
        · intro hbf
          subst hbf
          simp [truthy]
        · intro hbt
          subst hbt
          simp [truthy]
  · intro outs ln out h1 h2
    unfold applyOnOutput
    rw [h1]
    simp only [h2, Option.getD_none]
    rw [lookupOut_setOut_self]
    rfl
  · intro s hs hne
    unfold jsOrStr
    rw [hs]
    simp [hne]
  · intro hn
    unfold jsOrStr
    rw [hn]
  · intro outs ln out eb v h1 h2 hg ht
    unfold applyOnOutput
    rw [h1]
    simp only [h2, Option.getD_some]
    have hab : outputSpec.applyType eb (some eb)
        (jsOrStr cfg.exportPfx cfg.pfx) ln cfg = eb := by
      rw [applyType_eq_setProp outputSpec eb (some eb) _ ln cfg (by rfl)]
      have hw : writeVal outputSpec (some eb)
          (jsOrStr cfg.exportPfx cfg.pfx) ln cfg = v := by
        unfold writeVal
        simp only [Option.getD_some]
        rw [show outputSpec.getNameProp = "Name" from rfl, hg]
        simp [ht]
      rw [hw, show outputSpec.getNameProp = "Name" from rfl]
      exact setProp_getProp_eq eb "Name" v hg
    rw [hab]
    have hout : { out with exportBlock := some eb } = out := by
      cases out with
      | mk e => simp_all
    rw [hout]
    exact setOut_eq_of_lookup outs ln out h1

/-- Witness for C7: a fresh export block is created with the literal key
`"Name"` and the export prefix. -/
theorem claim_C7_exports_witness :
    lookupOut (applyOnOutput cfgExp outW "MyOut") "MyOut" =
      some { exportBlock := some [("Name",
        JValue.str (outputSpec.getNameValue
          (jsOrStr cfgExp.exportPfx cfgExp.pfx) "MyOut" cfgExp))] } :=
  (claim_C7_exports cfgExp).2.2.1 outW "MyOut" { exportBlock := none }
    (by rfl) (by rfl)

/-- C8: the rule bound to `AWS::Lambda::Function` strips the literal
suffix `"LambdaFunction"` (only when the logical id ends with exactly that
token) before kebab-case conversion when `removeLambdaFunctionSuffix` is
true, and uses the id unmodified otherwise; with prefix `"acct-"` and
logical name `"ProcessOrderLambdaFunction"` the synthesized name is
`"acct-process-order"`. -/
theorem claim_C8_lambda :
    (∀ (v : String) (cfg : Config),
      (typeSpecs.find? (fun s => s.isApplicable ⟨"AWS", "Lambda", "Function"⟩)).map
        (fun sp => sp.logicalNameConverter v cfg) =
      some (kebabCase (if cfg.removeLambdaFunctionSuffix then
        jsReplaceSuffix "LambdaFunction" v else v))) ∧
    (∀ v : String, endsWithL v.data "LambdaFunction".data = false →
      jsReplaceSuffix "LambdaFunction" v = v) ∧
    (∀ cfg : Config, cfg.removeLambdaFunctionSuffix = true →
      (typeSpecs.find? (fun s => s.isApplicable ⟨"AWS", "Lambda", "Function"⟩)).map
        (fun sp => sp.getNameValue "acct-" "ProcessOrderLambdaFunction" cfg) =
      some "acct-process-order") := by
  have hf : typeSpecs.find? (fun s => s.isApplicable ⟨"AWS", "Lambda", "Function"⟩) =
      some { defaultSpec ⟨"AWS", "Lambda", "Function"⟩ with
        logicalNameConverter := fun val cfg =>
          kebabCase (if cfg.removeLambdaFunctionSuffix then
            jsReplaceSuffix "LambdaFunction" val else val) } := by rfl
  refine ⟨?_, ?_, ?_⟩
  · intro v cfg
    rw [hf]
    rfl
  · intro v h
    unfold jsReplaceSuffix
    simp [h]
  · intro cfg h
    rw [hf]
    simp only [Option.map, TypeSpec.getNameValue, h]
    rfl

/-- Witness for C8 at the concrete configuration `cfgW`. -/
theorem claim_C8_lambda_witness :
    (typeSpecs.find? (fun s => s.isApplicable ⟨"AWS", "Lambda", "Function"⟩)).map
      (fun sp => sp.getNameValue "acct-" "ProcessOrderLambdaFunction" cfgW) =
    some "acct-process-order" :=
  claim_C8_lambda.2.2 cfgW (by rfl)

theorem find_first (l : List TypeSpec) (p : TypeSpec → Bool) (sp : TypeSpec)
    (h : l.find? p = some sp) :
    ∃ i : Fin l.length, l.get i = sp ∧ p sp = true ∧
      ∀ j : Fin l.length, j.val < i.val → p (l.get j) = false := by
  induction l with
  | nil => simp [List.find?] at h
  | cons hd tl ih =>
      by_cases hp : p hd
      · rw [List.find?_cons_of_pos tl hp] at h
        injection h with h
        subst h
        refine ⟨⟨0, by simp⟩, rfl, hp, ?_⟩
        intro j hj
        exact absurd hj (Nat.not_lt_zero _)
      · rw [List.find?_cons_of_neg tl hp] at h
        obtain ⟨i, hget, hpsp, hfirst⟩ := ih h
        refine ⟨⟨i.val + 1, by simp⟩, hget, hpsp, ?_⟩
        intro j hj
        obtain ⟨jv, hjv⟩ := j
        cases jv with
        | zero => simp at hp; exact hp
        | succ jj =>
            have hjj : jj < tl.length := by simp at hjv; omega
            have hlt : jj + 1 < i.val + 1 := hj
            have := hfirst ⟨jj, hjj⟩ (Nat.lt_of_succ_lt_succ hlt)
            exact this

/-- C9: rule lookup returns the first rule in declaration order whose
TypeIdentifier matches (and no rule only when none matches); the table
contains exactly two rules bound to `AWS::IAM::User`, the earlier with
insertion enabled and the later with it disabled, and lookup returns the
earlier one. -/
theorem claim_C9_firstmatch :
    (∀ (t : TypeID) (sp : TypeSpec),
      typeSpecs.find? (fun s => s.isApplicable t) = some sp →
      ∃ i : Fin typeSpecs.length, typeSpecs.get i = sp ∧
        sp.isApplicable t = true ∧
        ∀ j : Fin typeSpecs.length, j.val < i.val →
          (typeSpecs.get j).isApplicable t = false) ∧
    (∀ t : TypeID, typeSpecs.find? (fun s => s.isApplicable t) = none →
      ∀ sp, sp ∈ typeSpecs → sp.isApplicable t = false) ∧
    ((typeSpecs.filter (fun s => s.isApplicable ⟨"AWS", "IAM", "User"⟩)).map
      (fun s => s.noNameInsertion) = [false, true]) ∧
    ((typeSpecs.find? (fun s => s.isApplicable ⟨"AWS", "IAM", "User"⟩)).map
      (fun s => s.noNameInsertion) = some false) := by
  refine ⟨?_, ?_, by rfl, by rfl⟩
  · intro t sp h
    exact find_first typeSpecs (fun s => s.isApplicable t) sp h
  · intro t h sp hmem
    have := List.find?_eq_none.mp h sp hmem
    simpa using this

/-- Witness for C9: lookup of `AWS::IAM::User` returns the first of the
two entries bound to it — the default rule with insertion enabled. -/
theorem claim_C9_firstmatch_witness :
    ∃ i : Fin typeSpecs.length,
      typeSpecs.get i = defaultSpec ⟨"AWS", "IAM", "User"⟩ ∧
      (defaultSpec ⟨"AWS", "IAM", "User"⟩).isApplicable ⟨"AWS", "IAM", "User"⟩ = true ∧
      ∀ j : Fin typeSpecs.length, j.val < i.val →
        (typeSpecs.get j).isApplicable ⟨"AWS", "IAM", "User"⟩ = false :=
  claim_C9_firstmatch.1 ⟨"AWS", "IAM", "User"⟩
    (defaultSpec ⟨"AWS", "IAM", "User"⟩) (by rfl)

/-- C10: override-avoidance consults only the prior view — when the prior
collection is absent, has no entry for the logical id, or carries no truthy
value at the computed key, the pass overwrites whatever the declaration's
own properties held at that key with the freshly synthesized name. -/
theorem claim_C10_prior_only (cfg : Config) (m : ResMap) (T : Option ResMap)
    (ln : String) (res : Resource) (tag tr tp tn : String) (sp : TypeSpec)
    (h1 : lookupRes m ln = some res)
    (h2 : res.typeTag = some (JValue.str tag)) (h3 : tag ≠ "")
    (h4 : execTypeTag tag = some (tr, tp, tn))
    (h5 : typeSpecs.find? (fun s => s.isApplicable ⟨tr, tp, tn⟩) = some sp)
    (h6 : sp.noNameInsertion = false)
    (h7 : priorTruthy T ln sp.getNameProp = false) :
    ∃ m2, applyOnResource cfg m T ln = .ok (m2, []) ∧
      ∃ props2, lookupRes m2 ln = some { res with props := some props2 } ∧
        getProp props2 sp.getNameProp =
          some (JValue.str (sp.getNameValue cfg.pfx ln cfg)) := by
  refine ⟨_, applyOnResource_matched cfg m T ln res tag tr tp tn sp h1 h2 h3 h4 h5, ?_⟩
  refine ⟨_, lookupRes_setRes_self m ln _, ?_⟩
  rw [applyType_eq_setProp sp (res.props.getD [])
    ((T.bind (fun trs => lookupRes trs ln)).bind (fun tr2 => tr2.props))
    cfg.pfx ln cfg h6]
  have hw : writeVal sp
      ((T.bind (fun trs => lookupRes trs ln)).bind (fun tr2 => tr2.props))
      cfg.pfx ln cfg = JValue.str (sp.getNameValue cfg.pfx ln cfg) := by
    unfold priorTruthy at h7
    unfold writeVal
    cases hle : (T.bind (fun trs => lookupRes trs ln)).bind (fun tr2 => tr2.props) with
    | none => rfl
    | some pp =>
        simp only [Option.getD_some]
        cases hg : getProp pp sp.getNameProp with
        | none => rfl
        | some v =>
            simp only [hle, hg] at h7
            simp [h7]
  rw [hw]
  exact getProp_setProp_self _ _ _

/-- Witness for C10: a declaration carrying its own `RoleName` value and no
prior view — the value is overwritten by the synthesized name. -/
theorem claim_C10_prior_only_witness :
    ∃ m2, applyOnResource cfgW resC10 none "MyRole" = .ok (m2, []) ∧
      ∃ props2, lookupRes m2 "MyRole" = some
          { typeTag := some (.str "AWS::IAM::Role"),
            props := some props2 } ∧
        getProp props2 (defaultSpec ⟨"AWS", "IAM", "Role"⟩).getNameProp =
          some (JValue.str ((defaultSpec ⟨"AWS", "IAM", "Role"⟩).getNameValue
            cfgW.pfx "MyRole" cfgW)) :=
  claim_C10_prior_only cfgW resC10 none "MyRole"
    { typeTag := some (.str "AWS::IAM::Role"),
      props := some [("RoleName", .str "preexisting")] }
    "AWS::IAM::Role" "AWS" "IAM" "Role" (defaultSpec ⟨"AWS", "IAM", "Role"⟩)
    (by rfl) (by rfl) (by decide) (by rfl) (by rfl) (by rfl) (by rfl)

end AutoNames
